import Mathlib

/-!
# alfred-cli: the terminal chat line editor (`tui/chat.go`)

A shallow embedding of `tui/chat.go`.

* A Go `string` is an immutable sequence of bytes; it is modelled as a list of
  natural numbers below 256 (`GoString`).  `len(s)` is `List.length`, `s + t`
  is `++`, and the slice `s[:n]` is `List.take n`.
* A Go `rune` is an `int32`, modelled as an `Int`.  The conversion
  `string([]rune)` writes the UTF-8 encoding of each rune in order, replacing
  a rune that is not a valid code point by U+FFFD (`encoderune`).
* `tea.Msg` is an interface value: either a `tea.KeyMsg` or some other message.
* `tea.Cmd` is either `nil` (`none`) or `tea.Quit` (`some Cmd.Quit`).
-/

namespace Alfred

/-! ## Go strings -/

/-- A Go rune (`int32`). -/
abbrev Rune := Int

/-- A Go string: its bytes, in order. -/
abbrev GoString := List Nat

/-- Go's UTF-8 encoder for one rune (`utf8.encoderune`, used by the conversion
`string([]rune)`): the rune is read as a `uint32`; one to four bytes are
written; values above U+10FFFF and surrogates are encoded as U+FFFD. -/
def encoderune (r : Rune) : GoString :=
  let i := (r % 4294967296).toNat
  if i ≤ 0x7F then
    [i % 256]
  else if i ≤ 0x7FF then
    [0xC0 ||| ((i >>> 6) % 256), 0x80 ||| ((i % 256) &&& 0x3F)]
  else if i > 0x10FFFF ∨ (0xD800 ≤ i ∧ i ≤ 0xDFFF) then
    [0xEF, 0xBF, 0xBD]
  else if i ≤ 0xFFFF then
    [0xE0 ||| ((i >>> 12) % 256), 0x80 ||| (((i >>> 6) % 256) &&& 0x3F),
      0x80 ||| ((i % 256) &&& 0x3F)]
  else
    [0xF0 ||| ((i >>> 18) % 256), 0x80 ||| (((i >>> 12) % 256) &&& 0x3F),
      0x80 ||| (((i >>> 6) % 256) &&& 0x3F), 0x80 ||| ((i % 256) &&& 0x3F)]

/-- The Go conversion `string(rs)` of a rune slice. -/
def stringOfRunes (rs : List Rune) : GoString :=
  rs.flatMap encoderune

/-- The bytes of a string literal of the source file (UTF-8). -/
def goStr (s : String) : GoString :=
  s.toList.flatMap (fun c => encoderune (Int.ofNat c.toNat))

/-! ## Messages of the terminal library -/

/-- The key types of the terminal library (`tea.KeyType`).  The library gives
each a distinct integer value; `KeyOther` stands for every key type the
program does not name (tab, arrows, function keys, ...). -/
inductive KeyType where
  | KeyCtrlC
  | KeyEsc
  | KeyEnter
  | KeySpace
  | KeyBackspace
  | KeyDelete
  | KeyRunes
  | KeyOther (code : Nat)
  deriving DecidableEq, Repr

/-- A key event (`tea.KeyMsg`); the field `Type_` is the Go field `Type`. -/
structure KeyMsg where
  Type_ : KeyType
  Runes : List Rune
  Alt : Bool
  Paste : Bool
  deriving DecidableEq, Repr

/-- A message (`tea.Msg`): a key event, or any other message of the library
(window size, mouse, ...). -/
inductive Msg where
  | key (k : KeyMsg)
  | other (tag : Nat)
  deriving DecidableEq, Repr

/-- The commands the program returns (`tea.Cmd`, when not `nil`). -/
inductive Cmd where
  | Quit
  deriving DecidableEq, Repr

/-! ## The model -/

/-- The session state (`type model struct`). -/
structure model where
  messages : List GoString
  input : GoString
  deriving DecidableEq, Repr

/-- The state at startup: `initialModel()`. -/
def initialModel : model :=
  { messages := [], input := [] }

/-- The start-up command: `model.Init` returns `nil`. -/
def model.Init (_m : model) : Option Cmd :=
  none

/-- One step of the event loop: `model.Update`. -/
def model.Update (m : model) (msg : Msg) : model × Option Cmd :=
  match msg with
  | Msg.key k =>
    match k.Type_ with
    | KeyType.KeyCtrlC => (m, some Cmd.Quit)
    | KeyType.KeyEsc => (m, some Cmd.Quit)
    | KeyType.KeyEnter =>
      if m.input ≠ [] then
        let m1 : model := { m with messages := m.messages ++ [goStr "You: " ++ m.input] }
        let m2 : model := { m1 with messages := m1.messages ++ [goStr "Alfred: " ++ m1.input] }
        let m3 : model := { m2 with input := [] }
        (m3, none)
      else
        (m, none)
    | _ =>
      if k.Type_ = KeyType.KeySpace then
        ({ m with input := m.input ++ goStr " " }, none)
      else if k.Type_ = KeyType.KeyBackspace then
        if m.input.length > 0 then
          ({ m with input := m.input.take (m.input.length - 1) }, none)
        else
          (m, none)
      else if k.Runes.length > 0 then
        ({ m with input := m.input ++ stringOfRunes k.Runes }, none)
      else
        (m, none)
  | Msg.other _ => (m, none)

/-- The rendered screen: `model.View`. -/
def model.View (m : model) : GoString :=
  let s := goStr "Alfred CLI Chat\n\n"
  let s := m.messages.foldl (fun acc msg => acc ++ (msg ++ goStr "\n")) s
  let s := s ++ (goStr "\n> " ++ m.input)
  let s := s ++ goStr "\n\nPress Esc or Ctrl+C to quit."
  s

/-- The event loop's state after processing the messages in order (the state
returned by each `Update` is the one given to the next). -/
def run (m : model) (msgs : List Msg) : model :=
  msgs.foldl (fun s msg => (s.Update msg).1) m

/-- A printable-character key event: its type is none of interrupt, escape,
enter, space or backspace, and it carries at least one rune. -/
def isPrintableKey (k : KeyMsg) : Prop :=
  k.Type_ ≠ KeyType.KeyCtrlC ∧ k.Type_ ≠ KeyType.KeyEsc ∧ k.Type_ ≠ KeyType.KeyEnter ∧
    k.Type_ ≠ KeyType.KeySpace ∧ k.Type_ ≠ KeyType.KeyBackspace ∧ 0 < k.Runes.length

instance isPrintableKey.instDecidable (k : KeyMsg) : Decidable (isPrintableKey k) := by
  unfold isPrintableKey
  infer_instance

/-- The view as the specification words it: the title line, a blank line, each
transcript entry on its own line in insertion order, a blank line, the prompt
marker followed by the input buffer, a blank line, and the help line. -/
def View_spec (m : model) : GoString :=
  goStr "Alfred CLI Chat\n" ++ goStr "\n" ++
    m.messages.flatMap (fun entry => entry ++ goStr "\n") ++ goStr "\n" ++
    (goStr "> " ++ m.input ++ goStr "\n") ++ goStr "\n" ++
    goStr "Press Esc or Ctrl+C to quit."

/-! ## Process entry point -/

/-- What one call of the terminal library's `p.Run()` did: the bytes it wrote
to the standard output stream (the screens it rendered) and to the standard
error stream while it ran, and the error it returned (`none` for a `nil`
error, `some e` for an error whose text `err.Error()` is `e`). -/
structure RunResult where
  stdout : GoString
  stderr : GoString
  err : Option GoString
  deriving DecidableEq, Repr

/-- What a call of `Start` does to the process: all the bytes written to the
standard output and standard error streams during the call, those written by
`p.Run()` inside it included, and the status it exits with (`none` when
`Start` returns to its caller without exiting). -/
structure ProcessEffects where
  stdout : GoString
  stderr : GoString
  exit : Option Nat
  deriving DecidableEq, Repr

/-- The entry point `Start`.  The terminal library is outside the program:
`Run` stands for `tea.NewProgram(m)` followed by `p.Run()`, and `Start` calls
it on `initialModel()`.  When the returned error is not `nil`, `fmt.Printf`
writes to the standard output stream, after what `p.Run()` wrote there, the
format string with `%v` replaced by the error's text, and `os.Exit(1)` ends
the process with status 1; otherwise `Start` returns. -/
def Start (Run : model → RunResult) : ProcessEffects :=
  let r := Run initialModel
  match r.err with
  | some err =>
    { stdout := r.stdout ++ (goStr "Alas, there's been an error: " ++ err),
      stderr := r.stderr,
      exit := some 1 }
  | none =>
    { stdout := r.stdout, stderr := r.stderr, exit := none }

/-- A quit key: a key event of type interrupt (Ctrl+C) or escape. -/
def isQuitKey (msg : Msg) : Prop :=
  ∃ k : KeyMsg, msg = Msg.key k ∧ (k.Type_ = KeyType.KeyCtrlC ∨ k.Type_ = KeyType.KeyEsc)

/-- A commit: an Enter key event arriving while the input buffer is non-empty. -/
def isCommit (m : model) (msg : Msg) : Prop :=
  ∃ k : KeyMsg, msg = Msg.key k ∧ k.Type_ = KeyType.KeyEnter ∧ m.input ≠ []

/-- The two transcript entries of one committed line `x`. -/
def exchange (x : GoString) : List GoString :=
  [goStr "You: " ++ x, goStr "Alfred: " ++ x]

/-! ## Helper lemmas -/

theorem encoderune_ne_nil (r : Rune) : encoderune r ≠ [] := by
  unfold encoderune
  simp only []
  split_ifs <;> simp

theorem update_printable (m : model) (k : KeyMsg) (h : isPrintableKey k) :
    m.Update (Msg.key k) = ({ m with input := m.input ++ stringOfRunes k.Runes }, none) := by
  obtain ⟨h1, h2, h3, h4, h5, h6⟩ := h
  unfold model.Update
  cases hT : k.Type_ <;> simp_all

theorem run_printable (ks : List KeyMsg) (hks : ∀ k ∈ ks, isPrintableKey k) (m : model) :
    run m (ks.map Msg.key) =
      { m with input := m.input ++ stringOfRunes (ks.flatMap (fun k => k.Runes)) } := by
  induction ks generalizing m with
  | nil => simp [run, stringOfRunes]
  | cons k ks ih =>
    have hk : isPrintableKey k := hks k (List.mem_cons_self _ _)
    have hrest : ∀ k1 ∈ ks, isPrintableKey k1 := fun k1 hk1 => hks k1 (List.mem_cons_of_mem _ hk1)
    have hstep : run m ((k :: ks).map Msg.key) =
        run (m.Update (Msg.key k)).1 (ks.map Msg.key) := by
      simp [run]
    rw [hstep, update_printable m k hk, ih hrest]
    simp [stringOfRunes, List.flatMap_cons, List.flatMap_append, List.append_assoc]

theorem foldl_lines (nl : GoString) (l : List GoString) (s : GoString) :
    l.foldl (fun acc msg => acc ++ (msg ++ nl)) s = s ++ l.flatMap (fun entry => entry ++ nl) := by
  induction l generalizing s with
  | nil => simp
  | cons e l ih => simp [ih, List.flatMap_cons, List.append_assoc]

theorem stringOfRunes_ne_nil (s : List Rune) (hs : s ≠ []) : stringOfRunes s ≠ [] := by
  cases s with
  | nil => exact absurd rfl hs
  | cons c s =>
    intro h
    simp only [stringOfRunes, List.flatMap_cons, List.append_eq_nil] at h
    exact encoderune_ne_nil c h.1

theorem flatMap_runes_of_singletons (ks : List KeyMsg) (s : List Rune)
    (h : ks.map (fun k => k.Runes) = s.map (fun c => [c])) :
    ks.flatMap (fun k => k.Runes) = s := by
  induction ks generalizing s with
  | nil =>
    cases s with
    | nil => rfl
    | cons c s => simp at h
  | cons k ks ih =>
    cases s with
    | nil => simp at h
    | cons c s =>
      simp only [List.map_cons, List.cons.injEq] at h
      simp [List.flatMap_cons, h.1, ih s h.2]

theorem run_append (m : model) (xs ys : List Msg) : run m (xs ++ ys) = run (run m xs) ys := by
  simp [run, List.foldl_append]

theorem run_cons (m : model) (msg : Msg) (msgs : List Msg) :
    run m (msg :: msgs) = run (m.Update msg).1 msgs := by
  simp [run]

theorem run_snoc (m : model) (msgs : List Msg) (msg : Msg) :
    run m (msgs ++ [msg]) = ((run m msgs).Update msg).1 := by
  simp [run, List.foldl_append]

/-- The transcript after one step: unchanged, or (on a commit) the old
transcript followed by the two entries of the committed line. -/
theorem update_messages (m : model) (msg : Msg) :
    (¬ isCommit m msg ∧ (m.Update msg).1.messages = m.messages) ∨
      (isCommit m msg ∧ (m.Update msg).1.messages = m.messages ++ exchange m.input) := by
  cases msg with
  | other tag =>
    left
    refine ⟨?_, rfl⟩
    rintro ⟨k, hk, _⟩
    cases hk
  | key k =>
    by_cases hc : k.Type_ = KeyType.KeyEnter ∧ m.input ≠ []
    · right
      refine ⟨⟨k, rfl, hc.1, hc.2⟩, ?_⟩
      simp [model.Update, hc.1, hc.2, exchange]
    · left
      refine ⟨?_, ?_⟩
      · rintro ⟨k1, hk1, hty, hin⟩
        cases hk1
        exact hc ⟨hty, hin⟩
      · unfold model.Update
        cases hT : k.Type_ <;> simp_all <;> split_ifs <;> rfl

/-- A property of states that holds at the start and is kept by every step
holds after any finite sequence of messages. -/
theorem run_invariant (P : model → Prop) (hstep : ∀ m msg, P m → P (m.Update msg).1)
    (msgs : List Msg) (m : model) (hm : P m) : P (run m msgs) := by
  induction msgs generalizing m with
  | nil => exact hm
  | cons msg msgs ih =>
    rw [run_cons]
    exact ih _ (hstep m msg hm)

/-- A single byte that is the whole encoding of a rune is below 0x80. -/
theorem encoderune_singleton_lt (r : Rune) (b : Nat) (h : encoderune r = [b]) : b < 0x80 := by
  unfold encoderune at h
  simp only [] at h
  split_ifs at h with h1 <;> simp at h
  omega

/-- The byte string consisting of the lone byte 0xC3 is not the UTF-8 encoding
of any sequence of runes. -/
theorem stringOfRunes_ne_lead_byte (rs : List Rune) : stringOfRunes rs ≠ [0xC3] := by
  intro h
  cases rs with
  | nil => simp [stringOfRunes] at h
  | cons r rs =>
    simp only [stringOfRunes, List.flatMap_cons] at h
    rcases List.append_eq_cons_iff.mp h with ⟨h1, _⟩ | ⟨as, h1, h2⟩
    · exact encoderune_ne_nil r h1
    · have hnil : as = [] := by
        have := List.append_eq_nil.mp h2.symm
        exact this.1
      subst hnil
      have := encoderune_singleton_lt r 0xC3 h1
      omega

/-- Entries 2i and 2i+1 of a transcript made of exchanges are the two entries
of the i-th committed line. -/
theorem exchange_getElem (xs : List GoString) (i : Nat) :
    (xs.flatMap exchange)[2 * i]? = xs[i]?.map (fun x => goStr "You: " ++ x) ∧
      (xs.flatMap exchange)[2 * i + 1]? = xs[i]?.map (fun x => goStr "Alfred: " ++ x) := by
  induction xs generalizing i with
  | nil => simp
  | cons x xs ih =>
    cases i with
    | zero => simp [List.flatMap_cons, exchange]
    | succ i =>
      have e1 : 2 * (i + 1) = (2 * i + 1) + 1 := by omega
      rw [e1]
      simp only [List.flatMap_cons, exchange, List.cons_append, List.nil_append,
        List.getElem?_cons_succ]
      exact ih i

/-! ## Claims -/

/-- C1: for every state whose input buffer is non-empty, and whatever runes the
event carries, `Update` on an Enter key event yields the old transcript followed
by exactly the two entries "You: " + input and "Alfred: " + input (in that
order, with the old input), an empty input buffer, and no quit command. -/
theorem C1_enter_commits (m : model) (rs : List Rune) (alt paste : Bool)
    (h : m.input ≠ []) :
    m.Update (Msg.key ⟨KeyType.KeyEnter, rs, alt, paste⟩) =
      ({ messages := m.messages ++ [goStr "You: " ++ m.input, goStr "Alfred: " ++ m.input],
         input := [] }, none) := by
  simp [model.Update, h]

theorem C1_enter_commits_witness :
    (⟨[], goStr "hello"⟩ : model).input ≠ [] ∧
    (⟨[], goStr "hello"⟩ : model).Update (Msg.key ⟨KeyType.KeyEnter, [], false, false⟩) =
      ({ messages := [] ++ [goStr "You: " ++ goStr "hello", goStr "Alfred: " ++ goStr "hello"],
         input := [] }, none) :=
  ⟨by decide, C1_enter_commits ⟨[], goStr "hello"⟩ [] false false (by decide)⟩

/-- C2: for every state whose input buffer is the empty string, `Update` on an
Enter key event returns the given state unchanged and no quit command. -/
theorem C2_enter_empty_noop (m : model) (rs : List Rune) (alt paste : Bool)
    (h : m.input = []) :
    m.Update (Msg.key ⟨KeyType.KeyEnter, rs, alt, paste⟩) = (m, none) := by
  simp [model.Update, h]

theorem C2_enter_empty_noop_witness :
    (⟨[goStr "You: a", goStr "Alfred: a"], []⟩ : model).input = [] ∧
    (⟨[goStr "You: a", goStr "Alfred: a"], []⟩ : model).Update
        (Msg.key ⟨KeyType.KeyEnter, [120], false, false⟩) =
      (⟨[goStr "You: a", goStr "Alfred: a"], []⟩, none) :=
  ⟨rfl, C2_enter_empty_noop ⟨[goStr "You: a", goStr "Alfred: a"], []⟩ [120] false false rfl⟩

/-- C3: for every starting state and every finite sequence of
printable-character key events, folding `Update` over the sequence yields a
state whose input buffer is the starting input buffer followed by the
concatenation of all the events' runes in event order, and whose transcript is
unchanged; from the initial state the input buffer is exactly that
concatenation. -/
theorem C3_printable_concat (ks : List KeyMsg) (hks : ∀ k ∈ ks, isPrintableKey k) :
    (∀ m : model,
      (run m (ks.map Msg.key)).input =
          m.input ++ stringOfRunes (ks.flatMap (fun k => k.Runes)) ∧
        (run m (ks.map Msg.key)).messages = m.messages) ∧
      (run initialModel (ks.map Msg.key)).input =
        stringOfRunes (ks.flatMap (fun k => k.Runes)) := by
  refine ⟨fun m => ?_, ?_⟩
  · rw [run_printable ks hks m]
    exact ⟨rfl, rfl⟩
  · rw [run_printable ks hks initialModel]
    simp [initialModel]

theorem C3_printable_concat_witness :
    (∀ k ∈ [(⟨KeyType.KeyRunes, [104], false, false⟩ : KeyMsg),
        ⟨KeyType.KeyRunes, [233, 105], false, true⟩], isPrintableKey k) ∧
    ((∀ m : model,
      (run m ([(⟨KeyType.KeyRunes, [104], false, false⟩ : KeyMsg),
          ⟨KeyType.KeyRunes, [233, 105], false, true⟩].map Msg.key)).input =
          m.input ++ stringOfRunes
            ([(⟨KeyType.KeyRunes, [104], false, false⟩ : KeyMsg),
              ⟨KeyType.KeyRunes, [233, 105], false, true⟩].flatMap (fun k => k.Runes)) ∧
        (run m ([(⟨KeyType.KeyRunes, [104], false, false⟩ : KeyMsg),
          ⟨KeyType.KeyRunes, [233, 105], false, true⟩].map Msg.key)).messages = m.messages) ∧
      (run initialModel ([(⟨KeyType.KeyRunes, [104], false, false⟩ : KeyMsg),
          ⟨KeyType.KeyRunes, [233, 105], false, true⟩].map Msg.key)).input =
        stringOfRunes
          ([(⟨KeyType.KeyRunes, [104], false, false⟩ : KeyMsg),
            ⟨KeyType.KeyRunes, [233, 105], false, true⟩].flatMap (fun k => k.Runes))) :=
  ⟨by decide, C3_printable_concat _ (by decide)⟩

/-- C4 (the code departs from the claim): from the initial state, the single
printable-character event carrying the rune U+00E9 puts one character, of two
bytes 0xC3 0xA9, in the input buffer; Backspace then leaves the byte 0xC3 in
the buffer, which is not the buffer with its last character removed (the empty
string). -/
theorem C4_backspace_splits_multibyte_rune :
    (run initialModel [Msg.key ⟨KeyType.KeyRunes, [233], false, false⟩]).input =
        stringOfRunes [233] ∧
      stringOfRunes [233] = [0xC3, 0xA9] ∧
      (run initialModel [Msg.key ⟨KeyType.KeyRunes, [233], false, false⟩,
          Msg.key ⟨KeyType.KeyBackspace, [], false, false⟩]).input = [0xC3] ∧
      (run initialModel [Msg.key ⟨KeyType.KeyRunes, [233], false, false⟩,
          Msg.key ⟨KeyType.KeyBackspace, [], false, false⟩]).input ≠
        stringOfRunes (List.dropLast [233]) := by
  decide

/-- C5: for every state whose input buffer is the empty string, `Update` on a
Backspace key event returns the given state unchanged (the slice is not taken,
the transcript and the buffer are as before) and no command. -/
theorem C5_backspace_empty_noop (m : model) (rs : List Rune) (alt paste : Bool)
    (h : m.input = []) :
    m.Update (Msg.key ⟨KeyType.KeyBackspace, rs, alt, paste⟩) = (m, none) := by
  simp [model.Update, h]

theorem C5_backspace_empty_noop_witness :
    (⟨[goStr "You: a", goStr "Alfred: a"], []⟩ : model).input = [] ∧
    (⟨[goStr "You: a", goStr "Alfred: a"], []⟩ : model).Update
        (Msg.key ⟨KeyType.KeyBackspace, [], false, false⟩) =
      (⟨[goStr "You: a", goStr "Alfred: a"], []⟩, none) :=
  ⟨rfl, C5_backspace_empty_noop ⟨[goStr "You: a", goStr "Alfred: a"], []⟩ [] false false rfl⟩

/-- C6: for every state and every key event of type interrupt (Ctrl+C) or
escape, whatever runes the event carries and whatever the buffer holds,
`Update` returns the quit command together with the given state unchanged. -/
theorem C6_quit_keeps_state (m : model) (k : KeyMsg)
    (h : k.Type_ = KeyType.KeyCtrlC ∨ k.Type_ = KeyType.KeyEsc) :
    m.Update (Msg.key k) = (m, some Cmd.Quit) := by
  unfold model.Update
  rcases h with h | h <;> simp [h]

theorem C6_quit_keeps_state_witness :
    ((⟨KeyType.KeyEsc, [113], true, false⟩ : KeyMsg).Type_ = KeyType.KeyCtrlC ∨
      (⟨KeyType.KeyEsc, [113], true, false⟩ : KeyMsg).Type_ = KeyType.KeyEsc) ∧
    (⟨[goStr "You: a", goStr "Alfred: a"], goStr "bc"⟩ : model).Update
        (Msg.key ⟨KeyType.KeyEsc, [113], true, false⟩) =
      (⟨[goStr "You: a", goStr "Alfred: a"], goStr "bc"⟩, some Cmd.Quit) :=
  ⟨Or.inr rfl, C6_quit_keeps_state _ _ (Or.inr rfl)⟩

/-- C7: for every state, `Update` on a Space key event yields an input buffer
equal to the old one followed by exactly one space character (the byte 0x20),
whatever runes are attached to the event, leaves the transcript unchanged and
returns no command. -/
theorem C7_space_appends_one_space (m : model) (rs : List Rune) (alt paste : Bool) :
    m.Update (Msg.key ⟨KeyType.KeySpace, rs, alt, paste⟩) =
      ({ messages := m.messages, input := m.input ++ [0x20] }, none) := by
  have hsp : goStr " " = [0x20] := by decide
  simp [model.Update, hsp]

/-- C8: for every state, `Update` on a message that is not a key event, and on
a key event whose type is none of interrupt, escape, enter, space or backspace
and which carries no runes, returns the given state unchanged and no command. -/
theorem C8_other_events_noop (m : model) :
    (∀ tag : Nat, m.Update (Msg.other tag) = (m, none)) ∧
      (∀ k : KeyMsg, k.Type_ ≠ KeyType.KeyCtrlC → k.Type_ ≠ KeyType.KeyEsc →
        k.Type_ ≠ KeyType.KeyEnter → k.Type_ ≠ KeyType.KeySpace →
        k.Type_ ≠ KeyType.KeyBackspace → k.Runes = [] →
        m.Update (Msg.key k) = (m, none)) := by
  refine ⟨fun tag => rfl, ?_⟩
  intro k h1 h2 h3 h4 h5 h6
  unfold model.Update
  cases hT : k.Type_ <;> simp_all

theorem C8_other_events_noop_witness :
    (⟨[], goStr "ab"⟩ : model).Update (Msg.other 7) = (⟨[], goStr "ab"⟩, none) ∧
    (⟨[], goStr "ab"⟩ : model).Update (Msg.key ⟨KeyType.KeyOther 9, [], false, false⟩) =
      (⟨[], goStr "ab"⟩, none) :=
  ⟨(C8_other_events_noop ⟨[], goStr "ab"⟩).1 7,
    (C8_other_events_noop ⟨[], goStr "ab"⟩).2 ⟨KeyType.KeyOther 9, [], false, false⟩
      (by decide) (by decide) (by decide) (by decide) (by decide) rfl⟩

/-- C9: for every state, `View` returns exactly the concatenation, in order, of
the title line "Alfred CLI Chat\n", a blank line "\n", each transcript entry
followed by "\n" in insertion order, a blank line "\n", the prompt marker "> "
followed by the input buffer and "\n", a blank line "\n", and the help line
"Press Esc or Ctrl+C to quit." with no trailing newline. -/
theorem C9_view_layout (m : model) : m.View = View_spec m := by
  have h1 : goStr "Alfred CLI Chat\n\n" = goStr "Alfred CLI Chat\n" ++ goStr "\n" := by decide
  have h2 : goStr "\n> " = goStr "\n" ++ goStr "> " := by decide
  have h3 : goStr "\n\nPress Esc or Ctrl+C to quit." =
      goStr "\n" ++ (goStr "\n" ++ goStr "Press Esc or Ctrl+C to quit.") := by decide
  simp only [model.View, View_spec, foldl_lines, h1, h2, h3, List.append_assoc]

/-- C10: for every non-empty sequence `s` of characters, processing from the
initial state one printable-character key event per character of `s` and then
an Enter key event yields the transcript ["You: " + s, "Alfred: " + s] and an
empty input buffer, and `View` of that state is
"Alfred CLI Chat\n\nYou: " + s + "\nAlfred: " + s +
"\n\n> \n\nPress Esc or Ctrl+C to quit.". -/
theorem C10_type_then_enter (s : List Rune) (ks : List KeyMsg) (rs : List Rune)
    (alt paste : Bool) (hs : s ≠ [])
    (hks : ∀ k ∈ ks, isPrintableKey k)
    (hrunes : ks.map (fun k => k.Runes) = s.map (fun c => [c])) :
    run initialModel (ks.map Msg.key ++ [Msg.key ⟨KeyType.KeyEnter, rs, alt, paste⟩]) =
        { messages := [goStr "You: " ++ stringOfRunes s, goStr "Alfred: " ++ stringOfRunes s],
          input := [] } ∧
      (run initialModel
          (ks.map Msg.key ++ [Msg.key ⟨KeyType.KeyEnter, rs, alt, paste⟩])).View =
        goStr "Alfred CLI Chat\n\nYou: " ++ stringOfRunes s ++ goStr "\nAlfred: " ++
          stringOfRunes s ++ goStr "\n\n> \n\nPress Esc or Ctrl+C to quit." := by
  have hne : stringOfRunes s ≠ [] := stringOfRunes_ne_nil s hs
  have hrun : run initialModel
      (ks.map Msg.key ++ [Msg.key ⟨KeyType.KeyEnter, rs, alt, paste⟩]) =
      { messages := [goStr "You: " ++ stringOfRunes s, goStr "Alfred: " ++ stringOfRunes s],
        input := [] } := by
    rw [run_append, run_printable ks hks initialModel, flatMap_runes_of_singletons ks s hrunes]
    simp [run, model.Update, initialModel, hne]
  refine ⟨hrun, ?_⟩
  rw [hrun]
  have h1 : goStr "Alfred CLI Chat\n\nYou: " = goStr "Alfred CLI Chat\n\n" ++ goStr "You: " := by
    decide
  have h2 : goStr "\nAlfred: " = goStr "\n" ++ goStr "Alfred: " := by decide
  have h3 : goStr "\n\n> \n\nPress Esc or Ctrl+C to quit." =
      goStr "\n" ++ (goStr "\n> " ++ goStr "\n\nPress Esc or Ctrl+C to quit.") := by decide
  simp only [model.View, h1, h2, h3, List.foldl_cons, List.foldl_nil, List.append_assoc,
    List.append_nil]

theorem C10_type_then_enter_witness :
    ([104, 105] : List Rune) ≠ [] ∧
    run initialModel
        ([(⟨KeyType.KeyRunes, [104], false, false⟩ : KeyMsg),
            ⟨KeyType.KeyRunes, [105], false, false⟩].map Msg.key ++
          [Msg.key ⟨KeyType.KeyEnter, [], false, false⟩]) =
      { messages := [goStr "You: " ++ stringOfRunes [104, 105],
          goStr "Alfred: " ++ stringOfRunes [104, 105]],
        input := [] } ∧
    (run initialModel
        ([(⟨KeyType.KeyRunes, [104], false, false⟩ : KeyMsg),
            ⟨KeyType.KeyRunes, [105], false, false⟩].map Msg.key ++
          [Msg.key ⟨KeyType.KeyEnter, [], false, false⟩])).View =
      goStr "Alfred CLI Chat\n\nYou: " ++ stringOfRunes [104, 105] ++ goStr "\nAlfred: " ++
        stringOfRunes [104, 105] ++ goStr "\n\n> \n\nPress Esc or Ctrl+C to quit." :=
  ⟨by decide,
    C10_type_then_enter [104, 105]
      [⟨KeyType.KeyRunes, [104], false, false⟩, ⟨KeyType.KeyRunes, [105], false, false⟩]
      [] false false (by decide) (by decide) rfl⟩

/-- C11 (the code departs from the claim): from the initial state, for the
printable character U+00E9 the events [character, Backspace, Enter] leave the
byte 0xC3 in the input buffer after the Backspace, so the Enter is not a no-op:
it commits that byte, and the run ends with a transcript of two entries
instead of an empty one. -/
theorem C11_multibyte_backspace_enter_commits :
    (run initialModel [Msg.key ⟨KeyType.KeyRunes, [233], false, false⟩,
        Msg.key ⟨KeyType.KeyBackspace, [], false, false⟩]).input = [0xC3] ∧
      run initialModel [Msg.key ⟨KeyType.KeyRunes, [233], false, false⟩,
          Msg.key ⟨KeyType.KeyBackspace, [], false, false⟩,
          Msg.key ⟨KeyType.KeyEnter, [], false, false⟩] =
        { messages := [goStr "You: " ++ [0xC3], goStr "Alfred: " ++ [0xC3]], input := [] } ∧
      (run initialModel [Msg.key ⟨KeyType.KeyRunes, [233], false, false⟩,
          Msg.key ⟨KeyType.KeyBackspace, [], false, false⟩,
          Msg.key ⟨KeyType.KeyEnter, [], false, false⟩]).messages ≠ [] := by
  decide

/-- C12: the transcript is append-only: for every state and every message, the
transcript returned by `Update` has the old transcript as a prefix, and it
differs from the old transcript only when the message is an Enter key event
and the input buffer is non-empty. -/
theorem C12_transcript_append_only (m : model) (msg : Msg) :
    m.messages <+: (m.Update msg).1.messages ∧
      ((m.Update msg).1.messages ≠ m.messages → isCommit m msg) := by
  rcases update_messages m msg with ⟨_, h⟩ | ⟨hc, h⟩
  · rw [h]
    exact ⟨List.prefix_refl _, fun hne => absurd rfl hne⟩
  · rw [h]
    exact ⟨List.prefix_append _ _, fun _ => hc⟩

theorem C12_transcript_append_only_witness :
    (⟨[goStr "You: a", goStr "Alfred: a"], goStr "b"⟩ : model).messages <+:
        ((⟨[goStr "You: a", goStr "Alfred: a"], goStr "b"⟩ : model).Update
          (Msg.key ⟨KeyType.KeyEnter, [], false, false⟩)).1.messages ∧
      isCommit ⟨[goStr "You: a", goStr "Alfred: a"], goStr "b"⟩
        (Msg.key ⟨KeyType.KeyEnter, [], false, false⟩) :=
  ⟨(C12_transcript_append_only ⟨[goStr "You: a", goStr "Alfred: a"], goStr "b"⟩
      (Msg.key ⟨KeyType.KeyEnter, [], false, false⟩)).1,
    (C12_transcript_append_only ⟨[goStr "You: a", goStr "Alfred: a"], goStr "b"⟩
      (Msg.key ⟨KeyType.KeyEnter, [], false, false⟩)).2 (by decide)⟩

/-- C13: in every state reachable from the initial state by any finite
sequence of messages processed by `Update`, the length of the transcript is
even. -/
theorem C13_transcript_length_even (msgs : List Msg) :
    (run initialModel msgs).messages.length % 2 = 0 := by
  refine run_invariant (fun m => m.messages.length % 2 = 0) ?_ msgs initialModel rfl
  intro m msg hm
  rcases update_messages m msg with ⟨_, h⟩ | ⟨_, h⟩
  · rw [h]
    exact hm
  · rw [h]
    simp only [exchange, List.length_append, List.length_cons, List.length_nil]
    omega

/-- C14 (the code departs from the claim): from the initial state, after the
printable-character event carrying U+00E9 and a Backspace, the input buffer is
the lone byte 0xC3, which is not the UTF-8 encoding of any sequence of
characters: the buffer holds an invalid fragment that is neither a space nor a
rune attached to an earlier key event. -/
theorem C14_buffer_holds_invalid_fragment :
    (run initialModel [Msg.key ⟨KeyType.KeyRunes, [233], false, false⟩,
        Msg.key ⟨KeyType.KeyBackspace, [], false, false⟩]).input = [0xC3] ∧
      ∀ rs : List Rune, stringOfRunes rs ≠ [0xC3] :=
  ⟨by decide, stringOfRunes_ne_lead_byte⟩

/-- C15 (counterexample): with "ab" in the input buffer, a Delete key event
leaves the buffer "ab", while a Backspace key event on the same state leaves
"a": Delete does not remove the last character as Backspace does. -/
theorem C15_delete_differs_from_backspace :
    ((⟨[], goStr "ab"⟩ : model).Update
        (Msg.key ⟨KeyType.KeyDelete, [], false, false⟩)).1.input = goStr "ab" ∧
      ((⟨[], goStr "ab"⟩ : model).Update
        (Msg.key ⟨KeyType.KeyBackspace, [], false, false⟩)).1.input = goStr "a" ∧
      ((⟨[], goStr "ab"⟩ : model).Update
        (Msg.key ⟨KeyType.KeyDelete, [], false, false⟩)).1.input ≠
      ((⟨[], goStr "ab"⟩ : model).Update
        (Msg.key ⟨KeyType.KeyBackspace, [], false, false⟩)).1.input := by
  decide

/-- C15 (amended): for every state, empty buffer or not, `Update` on a Delete
key event that carries no runes returns the given state unchanged and no
command; a Delete key event that carries runes appends them like any other
key outside interrupt, escape, enter, space and backspace. -/
theorem C15_delete_is_not_handled (m : model) (rs : List Rune) (alt paste : Bool) :
    m.Update (Msg.key ⟨KeyType.KeyDelete, [], alt, paste⟩) = (m, none) ∧
      m.Update (Msg.key ⟨KeyType.KeyDelete, rs, alt, paste⟩) =
        (if 0 < rs.length then { m with input := m.input ++ stringOfRunes rs } else m, none) := by
  constructor
  · simp [model.Update]
  · unfold model.Update
    split_ifs <;> simp_all

/-- C16 (counterexample): when running the terminal program fails with the
error "EOF" before it has written anything, `Start` leaves the standard error
stream empty: the error text is not part of what that stream receives; the
message goes to the standard output stream, and the process exits with
status 1. -/
theorem C16_error_not_on_stderr :
    (Start (fun _ => ⟨[], [], some (goStr "EOF")⟩)).stderr = [] ∧
      ¬ (goStr "EOF" <:+: (Start (fun _ => ⟨[], [], some (goStr "EOF")⟩)).stderr) ∧
      (Start (fun _ => ⟨[], [], some (goStr "EOF")⟩)).stdout =
        goStr "Alas, there's been an error: EOF" ∧
      (Start (fun _ => ⟨[], [], some (goStr "EOF")⟩)).exit = some 1 := by
  refine ⟨rfl, ?_, by decide, rfl⟩
  have h : (Start (fun _ => ⟨[], [], some (goStr "EOF")⟩)).stderr = [] := rfl
  rw [h]
  intro hinf
  have hnil := List.eq_nil_of_infix_nil hinf
  revert hnil
  decide

/-- C16 (amended): when running the terminal program on the initial state
returns an error, `Start` writes the message "Alas, there's been an error: "
followed by the error's text to the standard output stream, after whatever the
terminal program wrote there, adds nothing to the standard error stream, and
exits with status 1; when it returns no error, `Start` adds nothing to either
stream and returns normally. -/
theorem C16_start_reports_on_stdout (Run : model → RunResult) :
    (∀ err : GoString, (Run initialModel).err = some err →
        Start Run =
          { stdout := (Run initialModel).stdout ++
              (goStr "Alas, there's been an error: " ++ err),
            stderr := (Run initialModel).stderr,
            exit := some 1 }) ∧
      ((Run initialModel).err = none →
        Start Run =
          { stdout := (Run initialModel).stdout,
            stderr := (Run initialModel).stderr,
            exit := none }) := by
  refine ⟨fun err h => ?_, fun h => ?_⟩
  · simp only [Start, h]
  · simp only [Start, h]

theorem C16_start_reports_on_stdout_witness :
    Start (fun m => ⟨m.View, goStr "warn", some (goStr "EOF")⟩) =
        { stdout := initialModel.View ++ (goStr "Alas, there's been an error: " ++ goStr "EOF"),
          stderr := goStr "warn",
          exit := some 1 } ∧
      Start (fun m => ⟨m.View, [], none⟩) =
        { stdout := initialModel.View, stderr := [], exit := none } :=
  ⟨(C16_start_reports_on_stdout (fun m => ⟨m.View, goStr "warn", some (goStr "EOF")⟩)).1
      (goStr "EOF") rfl,
    (C16_start_reports_on_stdout (fun m => ⟨m.View, [], none⟩)).2 rfl⟩

/-- C17: for every state and every message, `Update` returns the quit command
if and only if the message is a key event of type interrupt (Ctrl+C) or
escape; for every other message it returns no command. -/
theorem C17_quit_iff_quit_key (m : model) (msg : Msg) :
    ((m.Update msg).2 = some Cmd.Quit ↔ isQuitKey msg) ∧
      ((m.Update msg).2 = none ↔ ¬ isQuitKey msg) := by
  cases msg with
  | other tag =>
    have hq : ¬ isQuitKey (Msg.other tag) := by
      rintro ⟨k, hk, _⟩
      cases hk
    simp [model.Update, hq]
  | key k =>
    by_cases hq : k.Type_ = KeyType.KeyCtrlC ∨ k.Type_ = KeyType.KeyEsc
    · have hQ : isQuitKey (Msg.key k) := ⟨k, rfl, hq⟩
      have hu : (m.Update (Msg.key k)).2 = some Cmd.Quit := by
        unfold model.Update
        rcases hq with h | h <;> simp [h]
      simp [hu, hQ]
    · have hQ : ¬ isQuitKey (Msg.key k) := by
        rintro ⟨k1, hk1, h1⟩
        cases hk1
        exact hq h1
      have hu : (m.Update (Msg.key k)).2 = none := by
        unfold model.Update
        cases hT : k.Type_ <;> simp_all <;> split_ifs <;> rfl
      simp [hu, hQ]

/-- C18: in every state reachable from the initial state by any finite
sequence of messages, the transcript is a sequence of consecutive pairs: there
are non-empty lines x_0, x_1, ... such that the transcript has twice as many
entries as there are lines, entry 2i is "You: " + x_i and entry 2i+1 is
"Alfred: " + x_i. -/
theorem C18_transcript_is_pairs (msgs : List Msg) :
    ∃ xs : List GoString,
      (∀ x ∈ xs, x ≠ []) ∧
      (run initialModel msgs).messages = xs.flatMap exchange ∧
      (run initialModel msgs).messages.length = 2 * xs.length ∧
      ∀ i : Nat,
        (run initialModel msgs).messages[2 * i]? = xs[i]?.map (fun x => goStr "You: " ++ x) ∧
        (run initialModel msgs).messages[2 * i + 1]? =
          xs[i]?.map (fun x => goStr "Alfred: " ++ x) := by
  have hinv : ∃ xs : List GoString,
      (∀ x ∈ xs, x ≠ []) ∧ (run initialModel msgs).messages = xs.flatMap exchange := by
    refine run_invariant
      (fun m => ∃ xs : List GoString, (∀ x ∈ xs, x ≠ []) ∧ m.messages = xs.flatMap exchange)
      ?_ msgs initialModel ⟨[], by simp, rfl⟩
    rintro m msg ⟨xs, hxs, hm⟩
    rcases update_messages m msg with ⟨_, h⟩ | ⟨⟨k, _, _, hin⟩, h⟩
    · exact ⟨xs, hxs, h.trans hm⟩
    · refine ⟨xs ++ [m.input], ?_, ?_⟩
      · intro x hx
        rcases List.mem_append.mp hx with hx | hx
        · exact hxs x hx
        · rw [List.mem_singleton.mp hx]
          exact hin
      · rw [h, hm]
        simp [List.flatMap_append, List.flatMap_cons]
  obtain ⟨xs, hxs, hm⟩ := hinv
  refine ⟨xs, hxs, hm, ?_, ?_⟩
  · rw [hm]
    clear hm hxs
    induction xs with
    | nil => rfl
    | cons x xs ih =>
      simp only [List.flatMap_cons, List.length_append, List.length_cons, ih, exchange,
        List.length_nil]
      omega
  · intro i
    rw [hm]
    exact exchange_getElem xs i

/-- C19: for every state whose input buffer is non-empty, `Update` on a
Backspace key event yields the old input buffer with exactly its last byte
removed: the new buffer is a prefix of the old one and its byte length is the
old byte length minus one, whatever character that byte belonged to; the
transcript is unchanged. -/
theorem C19_backspace_removes_last_byte (m : model) (rs : List Rune) (alt paste : Bool)
    (h : m.input ≠ []) :
    (m.Update (Msg.key ⟨KeyType.KeyBackspace, rs, alt, paste⟩)).1.input = m.input.dropLast ∧
      (m.Update (Msg.key ⟨KeyType.KeyBackspace, rs, alt, paste⟩)).1.input <+: m.input ∧
      (m.Update (Msg.key ⟨KeyType.KeyBackspace, rs, alt, paste⟩)).1.input.length + 1 =
        m.input.length ∧
      (m.Update (Msg.key ⟨KeyType.KeyBackspace, rs, alt, paste⟩)).1.messages = m.messages := by
  have hlen : 0 < m.input.length := List.length_pos.mpr h
  have hu : m.Update (Msg.key ⟨KeyType.KeyBackspace, rs, alt, paste⟩) =
      ({ m with input := m.input.take (m.input.length - 1) }, none) := by
    simp [model.Update, hlen]
  rw [hu]
  refine ⟨(List.dropLast_eq_take m.input).symm, List.take_prefix _ _, ?_, rfl⟩
  simp only [List.length_take]
  omega

theorem C19_backspace_removes_last_byte_witness :
    (⟨[], [0xC3, 0xA9]⟩ : model).input ≠ [] ∧
    (((⟨[], [0xC3, 0xA9]⟩ : model).Update
        (Msg.key ⟨KeyType.KeyBackspace, [], false, false⟩)).1.input =
          List.dropLast [0xC3, 0xA9] ∧
      ((⟨[], [0xC3, 0xA9]⟩ : model).Update
        (Msg.key ⟨KeyType.KeyBackspace, [], false, false⟩)).1.input <+: [0xC3, 0xA9] ∧
      ((⟨[], [0xC3, 0xA9]⟩ : model).Update
        (Msg.key ⟨KeyType.KeyBackspace, [], false, false⟩)).1.input.length + 1 =
          List.length [0xC3, 0xA9] ∧
      ((⟨[], [0xC3, 0xA9]⟩ : model).Update
        (Msg.key ⟨KeyType.KeyBackspace, [], false, false⟩)).1.messages = []) :=
  ⟨by decide, C19_backspace_removes_last_byte ⟨[], [0xC3, 0xA9]⟩ [] false false (by decide)⟩

end Alfred
